import Mathlib

/-!
Shallow embedding of the HttpFilteringEngine engine core.  Only the header
of the control facade (`HttpFilteringEngineControl.hpp`) ships in this
repository; the component implementations it composes are absent, so every
operation below is modelled from the specification text and the facade
header's documented contracts, as flagged in each doc comment.
-/

namespace HttpEngine

/-- Modelled from the spec: the program-wide option space is a fixed array
of atomic booleans of bounded width (at least 32 entries); the concrete
implementation is missing, so the declared range is fixed at 32. -/
def optionsCount : Nat := 32

/-- Modelled from the spec: the category space is a fixed array of 256
atomic booleans (categories are `uint8_t`); index 0 is always false. -/
def categoryCount : Nat := 256

/-- Modelled from the spec: the `ProgramWideOptions` component, a flat
atomic flag array for runtime toggles plus one for per-category
enablement.  The arrays are modelled as total functions on `Nat`; all
accessors bound-check against the declared ranges. -/
structure ProgramWideOptions where
  optionFlags : Nat → Bool
  categoryFlags : Nat → Bool

/-- Freshly constructed options state: every flag false. -/
def ProgramWideOptions.init : ProgramWideOptions :=
  { optionFlags := fun _ => false, categoryFlags := fun _ => false }

/-- Modelled from the spec: `SetOptionEnabled` (facade header, missing
implementation).  If the supplied option index is beyond the fixed limit,
the call succeeds but has no effect. -/
def SetOptionEnabled (s : ProgramWideOptions) (opt : Nat) (enabled : Bool) :
    ProgramWideOptions :=
  if opt < optionsCount then
    { s with optionFlags := Function.update s.optionFlags opt enabled }
  else
    s

/-- Modelled from the spec: `GetOptionEnabled` (facade header, missing
implementation).  Out-of-range reads always return false. -/
def GetOptionEnabled (s : ProgramWideOptions) (opt : Nat) : Bool :=
  if opt < optionsCount then s.optionFlags opt else false

/-- Modelled from the spec: `SetCategoryEnabled` (facade header, missing
implementation).  Category zero is reserved; zero values are ignored by
the setter. -/
def SetCategoryEnabled (s : ProgramWideOptions) (cat : Nat) (enabled : Bool) :
    ProgramWideOptions :=
  if cat = 0 ∨ categoryCount ≤ cat then
    s
  else
    { s with categoryFlags := Function.update s.categoryFlags cat enabled }

/-- Modelled from the spec: `GetCategoryEnabled` (facade header, missing
implementation).  Supplying zero always yields false. -/
def GetCategoryEnabled (s : ProgramWideOptions) (cat : Nat) : Bool :=
  if cat = 0 ∨ categoryCount ≤ cat then false else s.categoryFlags cat

/-- Modelled from the spec: the observable state of the engine facade.
`desiredHttpPort`/`desiredHttpsPort` are the constructor arguments
(`m_httpListenerPort`/`m_httpsListenerPort`); the bound ports are what the
acceptors actually bound (zero while closed); `serviceThreads` counts the
live io-service worker threads. -/
structure EngineState where
  isRunning : Bool
  desiredHttpPort : Nat
  desiredHttpsPort : Nat
  httpBoundPort : Nat
  httpsBoundPort : Nat
  serviceThreads : Nat
deriving DecidableEq

/-- Modelled from the spec: the state of a freshly constructed engine:
not running, no acceptor bound, no threads. -/
def EngineState.constructed (httpPort httpsPort : Nat) : EngineState :=
  { isRunning := false
    desiredHttpPort := httpPort
    desiredHttpsPort := httpsPort
    httpBoundPort := 0
    httpsBoundPort := 0
    serviceThreads := 0 }

/-- Modelled from the spec: `Start` (facade header, missing
implementation).  A no-op while already running; otherwise binds the two
acceptors (to the desired ports, or to OS-assigned ports `osHttp`/`osHttps`
when the desired port is zero) and spawns the worker threads. -/
def Start (s : EngineState) (osHttp osHttps numThreads : Nat) : EngineState :=
  if s.isRunning then
    s
  else
    { s with
      isRunning := true
      httpBoundPort := if s.desiredHttpPort = 0 then osHttp else s.desiredHttpPort
      httpsBoundPort := if s.desiredHttpsPort = 0 then osHttps else s.desiredHttpsPort
      serviceThreads := numThreads }

/-- Modelled from the spec: `Stop` (facade header, missing
implementation).  A no-op while not running; otherwise closes both
acceptors, drains and joins the worker threads, and clears the running
flag. -/
def Stop (s : EngineState) : EngineState :=
  if s.isRunning then
    { s with
      isRunning := false
      httpBoundPort := 0
      httpsBoundPort := 0
      serviceThreads := 0 }
  else
    s

/-- Modelled from the spec: `IsRunning` (facade header, missing
implementation). -/
def IsRunning (s : EngineState) : Bool := s.isRunning

/-- Modelled from the spec: `GetHttpListenerPort` (facade header, missing
implementation): the port the plain TCP acceptor actually bound when the
engine is running, zero otherwise. -/
def GetHttpListenerPort (s : EngineState) : Nat :=
  if s.isRunning then s.httpBoundPort else 0

/-- Modelled from the spec: `GetHttpsListenerPort` (facade header, missing
implementation): the port the TLS acceptor actually bound when the engine
is running, zero otherwise. -/
def GetHttpsListenerPort (s : EngineState) : Nat :=
  if s.isRunning then s.httpsBoundPort else 0

/-- The engine states reachable from construction through `Start`/`Stop`. -/
inductive EngineState.Reachable : EngineState → Prop
  | constructed (p q : Nat) : EngineState.Reachable (EngineState.constructed p q)
  | start (s : EngineState) (a b n : Nat) :
      EngineState.Reachable s → EngineState.Reachable (Start s a b n)
  | stop (s : EngineState) :
      EngineState.Reachable s → EngineState.Reachable (Stop s)

/-- Whether `p` is an initial segment of `s` (structural, over raw
characters). -/
def isPrefixSeq : List Char → List Char → Bool
  | [], _ => true
  | _ :: _, [] => false
  | p :: ps, c :: cs => p = c && isPrefixSeq ps cs

/-- Whether `p` occurs contiguously anywhere inside `s`. -/
def containsSeq (p : List Char) : List Char → Bool
  | [] => isPrefixSeq p []
  | c :: rest => isPrefixSeq p (c :: rest) || containsSeq p rest

/-- Split a character list at every occurrence of `sep`; always returns at
least one group. -/
def splitOnChar (sep : Char) : List Char → List (List Char)
  | [] => [[]]
  | c :: rest =>
    if c = sep then
      [] :: splitOnChar sep rest
    else
      match splitOnChar sep rest with
      | [] => [[c]]
      | g :: gs => (c :: g) :: gs

/-- Break a character list at the first occurrence of `sep`: the part
before it and, when `sep` occurs, the part after it. -/
def breakAtChar (sep : Char) : List Char → List Char × Option (List Char)
  | [] => ([], none)
  | c :: rest =>
    if c = sep then
      ([], some rest)
    else
      match breakAtChar sep rest with
      | (pre, post) => (c :: pre, post)

/-- Break a character list at the last occurrence of `sep`. -/
def breakAtLastChar (sep : Char) (l : List Char) : List Char × Option (List Char) :=
  match breakAtChar sep l.reverse with
  | (_, none) => (l, none)
  | (tailRev, some bodyRev) => (bodyRev.reverse, some tailRev.reverse)

/-- Break a character list at the first occurrence of the contiguous
sequence `pat`: the parts before and after it, or `none` when `pat` does
not occur. -/
def breakAtSeq (pat : List Char) : List Char → Option (List Char × List Char)
  | [] => if pat = [] then some ([], []) else none
  | c :: rest =>
    if isPrefixSeq pat (c :: rest) then
      some ([], (c :: rest).drop pat.length)
    else
      match breakAtSeq pat rest with
      | none => none
      | some (pre, post) => some (c :: pre, post)

/-- Modelled from the spec: split list text into lines on a linefeed,
stripping any carriage returns. -/
def toLines (content : List Char) : List (List Char) :=
  (splitOnChar (Char.ofNat 10) content).map (List.filter fun c => !(c = Char.ofNat 13))

/-- Modelled from the spec: the vocabulary of recognised filter options
(the spec's examples: script, image, third-party, domain-restricted); the
concrete parser is missing from the repository.  An option outside this
vocabulary is unknown. -/
def knownOptions : List (List Char) :=
  ["script".data, "image".data, "third-party".data, "domain".data]

/-- Modelled from the spec: an Adblock-Plus URL rule pattern — either an
anchored host substring variant, or a generic (literal or wildcard)
substring pattern. -/
inductive RulePattern where
  | generic (pat : List Char)
  | hostAnchored (host : List Char)
deriving DecidableEq

/-- Modelled from the spec: a parsed Adblock-Plus URL rule: pattern,
option list, allowlist flag (the `@@` exception marker), category tag.
Rules are immutable once parsed. -/
structure UrlRule where
  pattern : RulePattern
  ruleOptions : List (List Char)
  isException : Bool
  category : Nat
deriving DecidableEq

/-- Modelled from the spec: an element-hiding rule: a CSS selector bound
to a domain (empty for the global bucket) and a category tag. -/
structure ElementRule where
  domain : List Char
  selector : List Char
  category : Nat
deriving DecidableEq

/-- The outcome of parsing one line of a filtering list. -/
inductive ParsedLine where
  | comment
  | elemRule (e : ElementRule)
  | abpRule (r : UrlRule)
  | failed
deriving DecidableEq

/-- The exception marker `@@`. -/
def exceptionMarker : List Char := "@@".data

/-- The element-selector separator `##`. -/
def selectorMarker : List Char := "##".data

/-- The rule text with any leading exception marker stripped. -/
def ruleText (line : List Char) : List Char :=
  if isPrefixSeq exceptionMarker line then line.drop 2 else line

/-- The filter options carried by the trailing `$opt1,opt2,...` of a rule
line, if any. -/
def lineOptions (line : List Char) : List (List Char) :=
  match breakAtLastChar (Char.ofNat 36) (ruleText line) with
  | (_, none) => []
  | (_, some opts) => splitOnChar (Char.ofNat 44) opts

/-- Whether a rule line carries a filter option outside the recognised
vocabulary. -/
def hasUnknownOption (line : List Char) : Bool :=
  (lineOptions line).any fun o => !(knownOptions.contains o)

/-- The pattern denoted by a rule body: `||host^` anchors at host
boundaries, anything else is a generic substring pattern. -/
def patternOfBody (body : List Char) : RulePattern :=
  if isPrefixSeq ("||".data) body ∧ body.getLast? = some (Char.ofNat 94) then
    RulePattern.hostAnchored (body.drop 2).dropLast
  else
    RulePattern.generic body

/-- Whether the line carries the allowlist exception marker. -/
def exceptionFlagOf (line : List Char) : Bool :=
  isPrefixSeq exceptionMarker line

/-- Modelled from the spec: parse one line of an Adblock-Plus filtering
list under a category.  Blank lines and lines beginning with `!` are
comments; `##` introduces a (global or domain-scoped) element selector;
`@@` marks an allowlist rule; a trailing `$opt1,opt2,...` carries filter
options, and an unknown option makes the rule fail. -/
def parseFilterLine (cat : Nat) (line : List Char) : ParsedLine :=
  if line = [] ∨ line.head? = some (Char.ofNat 33) then
    ParsedLine.comment
  else
    match breakAtSeq selectorMarker line with
    | some (dom, sel) => ParsedLine.elemRule ⟨dom, sel, cat⟩
    | none =>
      if hasUnknownOption line then
        ParsedLine.failed
      else
        match breakAtLastChar (Char.ofNat 36) (ruleText line) with
        | (body, _) =>
          ParsedLine.abpRule
            ⟨patternOfBody body, lineOptions line, exceptionFlagOf line, cat⟩

/-- The result of loading a list of lines: the parsed URL and element
rules, plus the loaded and failed counters reported to the caller. -/
structure LoadOutcome where
  urlRules : List UrlRule
  elementRules : List ElementRule
  rulesLoaded : Nat
  rulesFailed : Nat
deriving DecidableEq

/-- Modelled from the spec: load a list of lines one at a time; each
parsed rule is stored and counted as loaded, each failed rule is counted
as failed and discarded, and comments are skipped.  A failure never
aborts the remainder of the load. -/
def loadLines (cat : Nat) : List (List Char) → LoadOutcome
  | [] => ⟨[], [], 0, 0⟩
  | l :: ls =>
    let rest := loadLines cat ls
    match parseFilterLine cat l with
    | ParsedLine.comment => rest
    | ParsedLine.elemRule e =>
        ⟨rest.urlRules, e :: rest.elementRules, rest.rulesLoaded + 1, rest.rulesFailed⟩
    | ParsedLine.abpRule r =>
        ⟨r :: rest.urlRules, rest.elementRules, rest.rulesLoaded + 1, rest.rulesFailed⟩
    | ParsedLine.failed =>
        ⟨rest.urlRules, rest.elementRules, rest.rulesLoaded, rest.rulesFailed + 1⟩

/-- Modelled from the spec: the rule store — URL rules plus element rules,
every rule carrying its category tag. -/
structure FilteringStore where
  urlRules : List UrlRule
  elementRules : List ElementRule
deriving DecidableEq

/-- Modelled from the spec: `LoadFilteringListFromString` (facade header,
missing implementation).  Optionally flushes the rules already stored for
the category, then parses the supplied list and appends every parsed rule
to the store — no measure is taken to detect or prevent duplicate rule
entries.  Returns the new store plus the loaded and failed counts. -/
def LoadFilteringListFromString (store : FilteringStore) (content : List Char)
    (cat : Nat) (flush : Bool) : FilteringStore × Nat × Nat :=
  let base : FilteringStore :=
    if flush then
      ⟨store.urlRules.filter fun r => !(r.category == cat),
       store.elementRules.filter fun e => !(e.category == cat)⟩
    else
      store
  let out := loadLines cat (toLines content)
  (⟨base.urlRules ++ out.urlRules, base.elementRules ++ out.elementRules⟩,
   out.rulesLoaded, out.rulesFailed)

/-- The diagnostic surfaced through `OnError` when a filtering list file
cannot be read. -/
def ioErrorMessage : List Char :=
  "Failed to read supplied filtering list file.".data

/-- Modelled from the spec: `LoadFilteringListFromFile` (facade header,
missing implementation).  The file's content is `none` on a whole-file
I/O failure, in which case nothing is loaded and the failure is surfaced
through the `OnError` callback (the final component collects the emitted
error messages); otherwise the content is handed to the string loader. -/
def LoadFilteringListFromFile (store : FilteringStore)
    (fileContent : Option (List Char)) (cat : Nat) (flush : Bool) :
    (FilteringStore × Nat × Nat) × List (List Char) :=
  match fileContent with
  | none => ((store, 0, 0), [ioErrorMessage])
  | some content => (LoadFilteringListFromString store content cat flush, [])

/-- Modelled from the spec: the verdict of the filtering decision engine
for a URL query — `Allow`, `Block(category)`, or `Pass`. -/
inductive Verdict where
  | Allow
  | Block (category : Nat)
  | Pass
deriving DecidableEq

/-- Modelled from the spec: whether a URL rule matches a URL.  The spec
leaves host-boundary anchoring informal; matching is modelled as
contiguous containment of the pattern in the URL (the verdict-combination
claims are independent of the matcher). -/
def ruleMatches (r : UrlRule) (url : List Char) : Bool :=
  match r.pattern with
  | RulePattern.generic pat => containsSeq pat url
  | RulePattern.hostAnchored host => containsSeq host url

/-- An allowlist rule matching the URL with an enabled category. -/
def allowMatch (opts : ProgramWideOptions) (url : List Char) (r : UrlRule) : Bool :=
  r.isException && GetCategoryEnabled opts r.category && ruleMatches r url

/-- A block rule matching the URL with an enabled category. -/
def blockMatch (opts : ProgramWideOptions) (url : List Char) (r : UrlRule) : Bool :=
  !r.isException && GetCategoryEnabled opts r.category && ruleMatches r url

/-- Fold a candidate block category into the best (lowest) one so far. -/
def minCat : Option Nat → Nat → Option Nat
  | none, c => some c
  | some c', c => some (min c' c)

/-- One step of the URL query scan: record an allowlist hit, or fold a
block hit's category into the lowest reported so far. -/
def queryStep (opts : ProgramWideOptions) (url : List Char)
    (acc : Bool × Option Nat) (r : UrlRule) : Bool × Option Nat :=
  if allowMatch opts url r then
    (true, acc.2)
  else if blockMatch opts url r then
    (acc.1, minCat acc.2 r.category)
  else
    acc

/-- Turn the scan's accumulator into the final verdict: an allowlist hit
always wins; otherwise the lowest block category, if any, is reported. -/
def queryResult : Bool × Option Nat → Verdict
  | (true, _) => Verdict.Allow
  | (false, some c) => Verdict.Block c
  | (false, none) => Verdict.Pass

/-- Modelled from the spec: `query_url` of the rule store combined with
the filtering decision engine's resolution order.  Scans the stored URL
rules; an allowlist match with an enabled category yields `Allow`,
otherwise a block match with an enabled category yields `Block` with the
lowest-numbered matching category, otherwise `Pass`. -/
def query_url (store : FilteringStore) (opts : ProgramWideOptions)
    (url : List Char) : Verdict :=
  queryResult (store.urlRules.foldl (queryStep opts url) (false, none))

/-- Modelled from the spec: the observable state of one category's rule
index during a hot reload.  Readers only ever see `published` (the
immutable snapshot behind the atomic pointer); the writer's in-progress
build is off to the side: the rules built so far and the lines still to
parse. -/
structure ReloadSystem where
  published : List UrlRule
  offHeapBuild : Option (List UrlRule × List (List Char))
deriving DecidableEq

/-- Modelled from the spec: the writer's steps during a reload.  The
writer parses one line at a time into its private build, and finally
publishes the completed index in a single atomic step. -/
inductive ReloadStep (cat : Nat) : ReloadSystem → ReloadSystem → Prop
  | parseOne (pub acc : List UrlRule) (l : List Char) (ls : List (List Char)) :
      ReloadStep cat ⟨pub, some (acc, l :: ls)⟩
        ⟨pub, some (acc ++ (loadLines cat [l]).urlRules, ls)⟩
  | publish (pub acc : List UrlRule) :
      ReloadStep cat ⟨pub, some (acc, [])⟩ ⟨acc, none⟩

/-- Modelled from the spec: the per-host singleflight slot of the
certificate store: nothing, a pending generation awaited by the current
waiters, or a completed leaf. -/
inductive CertSlot where
  | empty
  | pending (numWaiters : Nat)
  | done (leaf : List Char)
deriving DecidableEq

/-- Modelled from the spec: the observable history of one host's slot:
the slot itself, how many leaf generations were ever started, the leaf
bytes delivered to callers, and how many callers received an error. -/
structure CertSlotState where
  slot : CertSlot
  genStarts : Nat
  delivered : List (List Char)
  errorsDelivered : Nat
deriving DecidableEq

/-- A fresh slot: no generation has ever run for the host. -/
def initCertSlot : CertSlotState :=
  { slot := CertSlot.empty, genStarts := 0, delivered := [], errorsDelivered := 0 }

/-- Modelled from the spec: one request for the host's leaf.  On an empty
slot it starts the unique in-flight generation; while one is in flight it
joins the waiters; once a leaf is done it is served from cache. -/
def request (s : CertSlotState) : CertSlotState :=
  match s.slot with
  | CertSlot.empty => { s with slot := CertSlot.pending 1, genStarts := s.genStarts + 1 }
  | CertSlot.pending n => { s with slot := CertSlot.pending (n + 1) }
  | CertSlot.done l => { s with delivered := s.delivered ++ [l] }

/-- `n` consecutive requests for the host's leaf. -/
def requests : Nat → CertSlotState → CertSlotState
  | 0, s => s
  | n + 1, s => request (requests n s)

/-- Modelled from the spec: the in-flight generation completes with a
leaf; every waiter receives the same leaf bytes and the slot caches it. -/
def genSuccess (leaf : List Char) (s : CertSlotState) : CertSlotState :=
  match s.slot with
  | CertSlot.pending n =>
      { s with slot := CertSlot.done leaf, delivered := s.delivered ++ List.replicate n leaf }
  | _ => s

/-- Modelled from the spec: the in-flight generation fails; every waiter
receives the error and the slot is cleared, allowing retry. -/
def genFailure (s : CertSlotState) : CertSlotState :=
  match s.slot with
  | CertSlot.pending n =>
      { s with slot := CertSlot.empty, errorsDelivered := s.errorsDelivered + n }
  | _ => s

/-- Modelled from the spec: the certificate store's root CA slot — the
certificate bytes of the currently installed root CA, if one has been
generated. -/
structure CertStore where
  rootCA : Option (List Char)
deriving DecidableEq

/-- The PEM armour's opening line. -/
def pemHeader : List Char := "-----BEGIN CERTIFICATE-----\n".data

/-- The PEM armour's closing line. -/
def pemFooter : List Char := "\n-----END CERTIFICATE-----\n".data

/-- Modelled from the spec: PEM-encode certificate bytes; encoding an
empty certificate is the modelled error case and fails. -/
def pemEncode (cert : List Char) : Option (List Char) :=
  if cert = [] then none else some (pemHeader ++ cert ++ pemFooter)

/-- Modelled from the spec: `GetRootCertificatePEM` (facade header,
missing implementation): the PEM bytes of the currently installed root
CA, or an empty vector when none has been generated or an error occurs. -/
def GetRootCertificatePEM (s : CertStore) : List Char :=
  match s.rootCA with
  | none => []
  | some ca => (pemEncode ca).getD []

/-! ### Theorems -/

/-- In every reachable state, a stopped engine holds no resources: its
acceptors are closed and its worker threads joined. -/
theorem EngineState.Reachable.stopped_released {s : EngineState}
    (h : EngineState.Reachable s) (hr : s.isRunning = false) :
    s.httpBoundPort = 0 ∧ s.httpsBoundPort = 0 ∧ s.serviceThreads = 0 := by
  induction h with
  | constructed p q => exact ⟨rfl, rfl, rfl⟩
  | start s a b n _ ih =>
    cases hs : s.isRunning with
    | true =>
      rw [show Start s a b n = s from by simp [Start, hs]] at hr ⊢
      exact ih hr
    | false => simp [Start, hs] at hr
  | stop s _ ih =>
    cases hs : s.isRunning with
    | true => simp [Stop, hs]
    | false =>
      rw [show Stop s = s from by simp [Stop, hs]] at hr ⊢
      exact ih hr

/-- In every reachable running state whose desired HTTP port is nonzero,
the acceptor is bound to exactly the desired port (the bound port can only
differ from the constructor argument when the latter was zero). -/
theorem EngineState.Reachable.bound_of_nonzero_desired {s : EngineState}
    (h : EngineState.Reachable s) (hr : s.isRunning = true) :
    (s.desiredHttpPort ≠ 0 → s.httpBoundPort = s.desiredHttpPort) ∧
    (s.desiredHttpsPort ≠ 0 → s.httpsBoundPort = s.desiredHttpsPort) := by
  induction h with
  | constructed p q => simp [EngineState.constructed] at hr
  | start s a b n _ ih =>
    cases hs : s.isRunning with
    | true =>
      rw [show Start s a b n = s from by simp [Start, hs]] at hr ⊢
      exact ih hr
    | false =>
      constructor
      · intro hd
        have hd' : s.desiredHttpPort ≠ 0 := by simpa [Start, hs] using hd
        simp [Start, hs, hd']
      · intro hd
        have hd' : s.desiredHttpsPort ≠ 0 := by simpa [Start, hs] using hd
        simp [Start, hs, hd']
  | stop s _ ih =>
    cases hs : s.isRunning with
    | true => simp [Stop, hs] at hr
    | false =>
      rw [show Stop s = s from by simp [Stop, hs]] at hr ⊢
      exact ih hr

/-- C2: for every category `c` with `0 < c` (within the `uint8_t` range),
`SetCategoryEnabled c v` followed by `GetCategoryEnabled c` returns `v`;
for `c = 0` the getter returns false no matter what was set, because the
setter ignores zero. -/
theorem setCategoryEnabled_getCategoryEnabled (s : ProgramWideOptions)
    (c : Nat) (v : Bool) :
    (0 < c → c < categoryCount →
      GetCategoryEnabled (SetCategoryEnabled s c v) c = v) ∧
    (∀ w : Bool, GetCategoryEnabled (SetCategoryEnabled s 0 w) 0 = false) ∧
    GetCategoryEnabled s 0 = false := by
  refine ⟨?_, ?_, ?_⟩
  · intro hc hlt
    have hne : ¬(c = 0 ∨ categoryCount ≤ c) := by
      push_neg
      exact ⟨Nat.pos_iff_ne_zero.mp hc, hlt⟩
    simp [GetCategoryEnabled, SetCategoryEnabled, hne]
  · intro w
    simp [GetCategoryEnabled, SetCategoryEnabled]
  · simp [GetCategoryEnabled]

/-- Witness for `setCategoryEnabled_getCategoryEnabled` at category 7. -/
theorem setCategoryEnabled_getCategoryEnabled_witness :
    GetCategoryEnabled (SetCategoryEnabled ProgramWideOptions.init 7 true) 7
      = true ∧
    GetCategoryEnabled (SetCategoryEnabled ProgramWideOptions.init 0 true) 0
      = false :=
  ⟨(setCategoryEnabled_getCategoryEnabled ProgramWideOptions.init 7 true).1
      (by decide) (by decide),
   (setCategoryEnabled_getCategoryEnabled ProgramWideOptions.init 7 true).2.1
      true⟩

/-- C3: for every option index inside the declared range, set/get
round-trips; for every index outside the range the setter leaves the whole
option state unchanged and the getter returns false. -/
theorem setOptionEnabled_getOptionEnabled (s : ProgramWideOptions)
    (i : Nat) (v : Bool) :
    (i < optionsCount → GetOptionEnabled (SetOptionEnabled s i v) i = v) ∧
    (optionsCount ≤ i → SetOptionEnabled s i v = s) ∧
    (optionsCount ≤ i → GetOptionEnabled s i = false) := by
  refine ⟨?_, ?_, ?_⟩
  · intro hi
    simp [GetOptionEnabled, SetOptionEnabled, hi]
  · intro hi
    simp [SetOptionEnabled, Nat.not_lt.mpr hi]
  · intro hi
    simp [GetOptionEnabled, Nat.not_lt.mpr hi]

/-- Witness for `setOptionEnabled_getOptionEnabled` at indices 3 (in
range) and 40 (out of range). -/
theorem setOptionEnabled_getOptionEnabled_witness :
    GetOptionEnabled (SetOptionEnabled ProgramWideOptions.init 3 true) 3
      = true ∧
    SetOptionEnabled ProgramWideOptions.init 40 true
      = ProgramWideOptions.init ∧
    GetOptionEnabled ProgramWideOptions.init 40 = false :=
  ⟨(setOptionEnabled_getOptionEnabled ProgramWideOptions.init 3 true).1
      (by decide),
   (setOptionEnabled_getOptionEnabled ProgramWideOptions.init 40 true).2.1
      (by decide),
   (setOptionEnabled_getOptionEnabled ProgramWideOptions.init 40 true).2.2
      (by decide)⟩

/-- C5: `Start` while running is a no-op (so `Start; Start` starts once),
`Stop; Stop` equals a single `Stop` and `Stop` on a non-running engine is
a no-op, and after `Stop` on any reachable state the engine's resources —
bound ports and worker threads — are fully released. -/
theorem start_stop_idempotent (s : EngineState) (a b n a' b' n' : Nat) :
    Start (Start s a b n) a' b' n' = Start s a b n ∧
    Stop (Stop s) = Stop s ∧
    (s.isRunning = false → Stop s = s) ∧
    (EngineState.Reachable s →
      (Stop s).httpBoundPort = 0 ∧ (Stop s).httpsBoundPort = 0 ∧
        (Stop s).serviceThreads = 0) := by
  refine ⟨?_, ?_, ?_, ?_⟩
  · by_cases hs : s.isRunning
    · simp [Start, hs]
    · simp [Start, hs]
  · by_cases hs : s.isRunning
    · simp [Stop, hs]
    · simp [Stop, hs]
  · intro hs
    simp [Stop, hs]
  · intro hreach
    have hstop : (Stop s).isRunning = false := by
      cases hs : s.isRunning with
      | true => simp [Stop, hs]
      | false => simp [Stop, hs]
    exact (EngineState.Reachable.stop s hreach).stopped_released hstop

/-- Witness for `start_stop_idempotent` on a freshly constructed engine
that has been started once. -/
theorem start_stop_idempotent_witness :
    Start (Start (Start (EngineState.constructed 0 0) 8080 8443 4)
        8080 8443 4) 9090 9443 8
      = Start (Start (EngineState.constructed 0 0) 8080 8443 4) 8080 8443 4 ∧
    (Stop (Start (EngineState.constructed 0 0) 8080 8443 4)).serviceThreads
      = 0 :=
  ⟨(start_stop_idempotent (Start (EngineState.constructed 0 0) 8080 8443 4)
      8080 8443 4 9090 9443 8).1,
   ((start_stop_idempotent (Start (EngineState.constructed 0 0) 8080 8443 4)
      8080 8443 4 9090 9443 8).2.2.2
      (EngineState.Reachable.start _ 8080 8443 4
        (EngineState.Reachable.constructed 0 0))).2.2⟩

/-- C9: whenever the engine is not running both listener-port getters
return zero; while it is running they return the port the corresponding
acceptor actually bound — which need not be the constructor argument: a
concrete run constructed with desired port 0 and started with an
OS-assigned port reports that assigned port. -/
theorem listener_port_getters (s : EngineState) :
    (s.isRunning = false →
      GetHttpListenerPort s = 0 ∧ GetHttpsListenerPort s = 0) ∧
    (s.isRunning = true →
      GetHttpListenerPort s = s.httpBoundPort ∧
        GetHttpsListenerPort s = s.httpsBoundPort) ∧
    GetHttpListenerPort (Start (EngineState.constructed 0 0) 49152 49153 4)
      = 49152 ∧
    (EngineState.constructed 0 0).desiredHttpPort = 0 := by
  refine ⟨?_, ?_, ?_, ?_⟩
  · intro hs
    simp [GetHttpListenerPort, GetHttpsListenerPort, hs]
  · intro hs
    simp [GetHttpListenerPort, GetHttpsListenerPort, hs]
  · decide
  · decide

/-- Witness for `listener_port_getters` on a stopped and on a running
state. -/
theorem listener_port_getters_witness :
    GetHttpListenerPort (EngineState.constructed 3128 3129) = 0 ∧
    GetHttpListenerPort (Start (EngineState.constructed 3128 3129) 0 0 4)
      = (Start (EngineState.constructed 3128 3129) 0 0 4).httpBoundPort :=
  ⟨((listener_port_getters (EngineState.constructed 3128 3129)).1
      (by decide)).1,
   ((listener_port_getters
      (Start (EngineState.constructed 3128 3129) 0 0 4)).2.1
      (by decide)).1⟩

/-- Loading a concatenation of line lists concatenates the stored rules
and adds the counters: parsing is line-local, so one bad line never
aborts what surrounds it. -/
theorem loadLines_append (cat : Nat) (l₁ l₂ : List (List Char)) :
    loadLines cat (l₁ ++ l₂) =
      ⟨(loadLines cat l₁).urlRules ++ (loadLines cat l₂).urlRules,
       (loadLines cat l₁).elementRules ++ (loadLines cat l₂).elementRules,
       (loadLines cat l₁).rulesLoaded + (loadLines cat l₂).rulesLoaded,
       (loadLines cat l₁).rulesFailed + (loadLines cat l₂).rulesFailed⟩ := by
  induction l₁ with
  | nil => simp [loadLines]
  | cons l ls ih =>
    cases hp : parseFilterLine cat l <;>
      simp [loadLines, hp, ih, List.append_assoc] <;> omega

/-- The allow component of the query scan: true exactly when some rule in
the scanned list is an enabled allowlist match. -/
theorem foldl_queryStep_fst (opts : ProgramWideOptions) (url : List Char)
    (rules : List UrlRule) (acc : Bool × Option Nat) :
    (rules.foldl (queryStep opts url) acc).1
      = (acc.1 || rules.any (allowMatch opts url)) := by
  induction rules generalizing acc with
  | nil => simp
  | cons r rs ih =>
    by_cases ha : allowMatch opts url r
    · simp [queryStep, ha, ih]
    · by_cases hb : blockMatch opts url r
      · simp [queryStep, ha, hb, ih]
      · simp [queryStep, ha, hb, ih]

/-- The block component of the query scan ignores the allow flag and is
the fold of `minCat` over the block matches. -/
theorem foldl_queryStep_snd (opts : ProgramWideOptions) (url : List Char)
    (rules : List UrlRule) (acc : Bool × Option Nat) :
    (rules.foldl (queryStep opts url) acc).2
      = rules.foldl
          (fun o r => if blockMatch opts url r then minCat o r.category else o)
          acc.2 := by
  induction rules generalizing acc with
  | nil => simp
  | cons r rs ih =>
    by_cases ha : allowMatch opts url r
    · have hb : blockMatch opts url r = false := by
        rcases Bool.eq_false_or_eq_true r.isException with h | h
        · simp [blockMatch, h]
        · simp [allowMatch, h] at ha
      simp [queryStep, ha, hb, ih]
    · by_cases hb : blockMatch opts url r
      · simp [queryStep, ha, hb, ih]
      · simp [queryStep, ha, hb, ih]

/-- The `minCat` fold over block matches equals the `minCat` fold over
the list of matching block categories. -/
theorem blockFold_eq_catsFold (opts : ProgramWideOptions) (url : List Char)
    (rules : List UrlRule) (acc : Option Nat) :
    rules.foldl
        (fun o r => if blockMatch opts url r then minCat o r.category else o)
        acc
      = ((rules.filter (blockMatch opts url)).map (fun r => r.category)).foldl
          minCat acc := by
  induction rules generalizing acc with
  | nil => simp
  | cons r rs ih =>
    by_cases hb : blockMatch opts url r
    · simp [hb, ih]
    · simp [hb, ih]

/-- Folding `minCat` from a seeded accumulator yields the least of the
seed and the list's members. -/
theorem foldl_minCat_some (l : List Nat) (m : Nat) :
    ∃ c, l.foldl minCat (some m) = some c ∧ (c = m ∨ c ∈ l) ∧ c ≤ m ∧
      ∀ x ∈ l, c ≤ x := by
  induction l generalizing m with
  | nil => exact ⟨m, rfl, Or.inl rfl, le_refl m, by simp⟩
  | cons x l ih =>
    obtain ⟨c, hc, hmem, hle, hall⟩ := ih (min m x)
    refine ⟨c, ?_, ?_, ?_, ?_⟩
    · simpa [minCat] using hc
    · rcases hmem with h | h
      · rcases Nat.le_total m x with hmx | hxm
        · exact Or.inl (by rw [h]; exact Nat.min_eq_left hmx)
        · exact Or.inr (by rw [h, Nat.min_eq_right hxm]; exact List.mem_cons_self x l)
      · exact Or.inr (List.mem_cons_of_mem x h)
    · exact le_trans hle (Nat.min_le_left m x)
    · intro y hy
      rcases List.mem_cons.mp hy with h | h
      · exact h ▸ le_trans hle (Nat.min_le_right m x)
      · exact hall y h

/-- `queryResult` yields `Allow` whenever the allow flag is set. -/
theorem queryResult_allow (acc : Bool × Option Nat) (h : acc.1 = true) :
    queryResult acc = Verdict.Allow := by
  obtain ⟨b, o⟩ := acc
  cases b with
  | true => cases o <;> rfl
  | false => simp at h

/-- `queryResult` reports the accumulated block category when no
allowlist rule matched. -/
theorem queryResult_block (acc : Bool × Option Nat) (c : Nat)
    (h1 : acc.1 = false) (h2 : acc.2 = some c) :
    queryResult acc = Verdict.Block c := by
  obtain ⟨b, o⟩ := acc
  cases b with
  | true => simp at h1
  | false =>
    rw [show o = some c from h2]
    rfl

/-- `queryResult` yields `Pass` when nothing matched. -/
theorem queryResult_pass (acc : Bool × Option Nat)
    (h1 : acc.1 = false) (h2 : acc.2 = none) :
    queryResult acc = Verdict.Pass := by
  obtain ⟨b, o⟩ := acc
  cases b with
  | true => simp at h1
  | false =>
    rw [show o = none from h2]
    rfl

/-- C1: for every URL query against the rule store: if any allowlist rule
matches with an enabled category the verdict is `Allow` (allowlist wins
over block across all enabled categories); otherwise, if any block rule
matches with an enabled category, the verdict is `Block` carrying a
matching rule's category — the lowest-numbered one; otherwise the verdict
is `Pass`. -/
theorem query_url_verdict (store : FilteringStore) (opts : ProgramWideOptions)
    (url : List Char) :
    ((∃ r ∈ store.urlRules, allowMatch opts url r = true) →
      query_url store opts url = Verdict.Allow) ∧
    ((∀ r ∈ store.urlRules, allowMatch opts url r = false) →
      (∃ r ∈ store.urlRules, blockMatch opts url r = true) →
      ∃ r ∈ store.urlRules, blockMatch opts url r = true ∧
        query_url store opts url = Verdict.Block r.category ∧
        ∀ r' ∈ store.urlRules, blockMatch opts url r' = true →
          r.category ≤ r'.category) ∧
    ((∀ r ∈ store.urlRules, allowMatch opts url r = false) →
      (∀ r ∈ store.urlRules, blockMatch opts url r = false) →
      query_url store opts url = Verdict.Pass) := by
  refine ⟨?_, ?_, ?_⟩
  · rintro ⟨r, hr, ha⟩
    have hany : store.urlRules.any (allowMatch opts url) = true :=
      List.any_eq_true.mpr ⟨r, hr, ha⟩
    have h1 : (store.urlRules.foldl (queryStep opts url) (false, none)).1 = true := by
      rw [foldl_queryStep_fst]
      simp [hany]
    exact queryResult_allow _ h1
  · intro hallow hblock
    have hany : store.urlRules.any (allowMatch opts url) = false := by
      rw [List.any_eq_false]
      intro r hr
      simp [hallow r hr]
    have h1 : (store.urlRules.foldl (queryStep opts url) (false, none)).1 = false := by
      rw [foldl_queryStep_fst]
      simp [hany]
    obtain ⟨rb, hrb, hb⟩ := hblock
    have hmem0 : rb.category ∈
        (store.urlRules.filter (blockMatch opts url)).map (fun r => r.category) :=
      List.mem_map.mpr ⟨rb, List.mem_filter.mpr ⟨hrb, hb⟩, rfl⟩
    cases hc : (store.urlRules.filter (blockMatch opts url)).map (fun r => r.category) with
    | nil =>
      rw [hc] at hmem0
      simp at hmem0
    | cons c0 cs =>
      obtain ⟨c, hfold, hcmem, hle0, hall⟩ := foldl_minCat_some cs c0
      have h2 : (store.urlRules.foldl (queryStep opts url) (false, none)).2 = some c := by
        rw [foldl_queryStep_snd, blockFold_eq_catsFold]
        rw [hc]
        simpa [minCat] using hfold
      have hcincats : c ∈
          (store.urlRules.filter (blockMatch opts url)).map (fun r => r.category) := by
        rw [hc]
        rcases hcmem with h | h
        · rw [h]
          exact List.mem_cons_self c0 cs
        · exact List.mem_cons_of_mem c0 h
      obtain ⟨r, hrf, hrc⟩ := List.mem_map.mp hcincats
      refine ⟨r, (List.mem_filter.mp hrf).1, (List.mem_filter.mp hrf).2, ?_, ?_⟩
      · rw [hrc]
        exact queryResult_block _ c h1 h2
      · intro r' hr' hb'
        have hin : r'.category ∈
            (store.urlRules.filter (blockMatch opts url)).map (fun r => r.category) :=
          List.mem_map.mpr ⟨r', List.mem_filter.mpr ⟨hr', hb'⟩, rfl⟩
        rw [hc] at hin
        rw [hrc]
        rcases List.mem_cons.mp hin with h | h
        · rw [h]
          exact hle0
        · exact hall _ h
  · intro hallow hblock
    have hany : store.urlRules.any (allowMatch opts url) = false := by
      rw [List.any_eq_false]
      intro r hr
      simp [hallow r hr]
    have h1 : (store.urlRules.foldl (queryStep opts url) (false, none)).1 = false := by
      rw [foldl_queryStep_fst]
      simp [hany]
    have h2 : (store.urlRules.foldl (queryStep opts url) (false, none)).2 = none := by
      rw [foldl_queryStep_snd, blockFold_eq_catsFold]
      have hfil : store.urlRules.filter (blockMatch opts url) = [] := by
        rw [List.filter_eq_nil_iff]
        intro r hr
        simp [hblock r hr]
      rw [hfil]
      rfl
    exact queryResult_pass _ h1 h2

/-- Witness for `query_url_verdict`: in a store with one enabled block
rule and one enabled allowlist rule, a URL matching both is allowed;
under a store with only the block rule, a URL matching nothing passes. -/
theorem query_url_verdict_witness :
    query_url
        ⟨[⟨RulePattern.generic "ads.".data, [], false, 1⟩,
          ⟨RulePattern.hostAnchored "example.com".data, [], true, 1⟩], []⟩
        (SetCategoryEnabled ProgramWideOptions.init 1 true)
        "http://ads.example.com/banner.gif".data = Verdict.Allow ∧
    query_url
        ⟨[⟨RulePattern.generic "ads.".data, [], false, 1⟩], []⟩
        (SetCategoryEnabled ProgramWideOptions.init 1 true)
        "http://example.org/index.html".data = Verdict.Pass :=
  ⟨(query_url_verdict
      ⟨[⟨RulePattern.generic "ads.".data, [], false, 1⟩,
        ⟨RulePattern.hostAnchored "example.com".data, [], true, 1⟩], []⟩
      (SetCategoryEnabled ProgramWideOptions.init 1 true)
      "http://ads.example.com/banner.gif".data).1 (by decide),
   (query_url_verdict
      ⟨[⟨RulePattern.generic "ads.".data, [], false, 1⟩], []⟩
      (SetCategoryEnabled ProgramWideOptions.init 1 true)
      "http://example.org/index.html".data).2.2 (by decide) (by decide)⟩

/-- C4: during a rule-list load, a non-comment, non-selector line
carrying an unknown filter option parses as failed; a failed line is
counted in `rules_failed` and discarded while every surrounding line
still loads (one bad rule never aborts the whole load); and a whole-file
I/O failure loads zero rules and surfaces the failure through `OnError`. -/
theorem unknown_option_rule_isolated (cat : Nat) (store : FilteringStore)
    (flush : Bool) (ls₁ ls₂ : List (List Char)) (bad : List Char) :
    (bad ≠ [] → bad.head? ≠ some (Char.ofNat 33) →
      breakAtSeq selectorMarker bad = none →
      hasUnknownOption bad = true →
      parseFilterLine cat bad = ParsedLine.failed) ∧
    (parseFilterLine cat bad = ParsedLine.failed →
      (loadLines cat (ls₁ ++ bad :: ls₂)).urlRules
          = (loadLines cat ls₁).urlRules ++ (loadLines cat ls₂).urlRules ∧
        (loadLines cat (ls₁ ++ bad :: ls₂)).elementRules
          = (loadLines cat ls₁).elementRules ++ (loadLines cat ls₂).elementRules ∧
        (loadLines cat (ls₁ ++ bad :: ls₂)).rulesLoaded
          = (loadLines cat ls₁).rulesLoaded + (loadLines cat ls₂).rulesLoaded ∧
        (loadLines cat (ls₁ ++ bad :: ls₂)).rulesFailed
          = (loadLines cat ls₁).rulesFailed + (loadLines cat ls₂).rulesFailed + 1) ∧
    LoadFilteringListFromFile store none cat flush
      = ((store, 0, 0), [ioErrorMessage]) := by
  refine ⟨?_, ?_, rfl⟩
  · intro h1 h2 h3 h4
    have hcond : ¬(bad = [] ∨ bad.head? = some (Char.ofNat 33)) := by
      push_neg
      exact ⟨h1, h2⟩
    simp [parseFilterLine, hcond, h3, h4]
  · intro hp
    have hmid : loadLines cat (bad :: ls₂) =
        ⟨(loadLines cat ls₂).urlRules, (loadLines cat ls₂).elementRules,
         (loadLines cat ls₂).rulesLoaded, (loadLines cat ls₂).rulesFailed + 1⟩ := by
      simp [loadLines, hp]
    rw [loadLines_append, hmid]
    exact ⟨rfl, rfl, rfl, rfl⟩

/-- Witness for `unknown_option_rule_isolated`: a line with the unknown
option `bogusopt` fails, and loading it between two good rules loads both
neighbours and counts exactly one failure. -/
theorem unknown_option_rule_isolated_witness :
    parseFilterLine 1 "ads.example.com$bogusopt".data = ParsedLine.failed ∧
    (loadLines 1 (["||ads.example.com^".data] ++
        "ads.example.com$bogusopt".data :: ["@@||good.example.com^".data])).rulesLoaded
      = (loadLines 1 ["||ads.example.com^".data]).rulesLoaded +
          (loadLines 1 ["@@||good.example.com^".data]).rulesLoaded ∧
    (loadLines 1 (["||ads.example.com^".data] ++
        "ads.example.com$bogusopt".data :: ["@@||good.example.com^".data])).rulesFailed
      = (loadLines 1 ["||ads.example.com^".data]).rulesFailed +
          (loadLines 1 ["@@||good.example.com^".data]).rulesFailed + 1 :=
  ⟨(unknown_option_rule_isolated 1 ⟨[], []⟩ true [] []
      "ads.example.com$bogusopt".data).1 (by decide) (by decide) (by decide)
      (by decide),
   ((unknown_option_rule_isolated 1 ⟨[], []⟩ true
      ["||ads.example.com^".data] ["@@||good.example.com^".data]
      "ads.example.com$bogusopt".data).2.1 (by decide)).2.2.1,
   ((unknown_option_rule_isolated 1 ⟨[], []⟩ true
      ["||ads.example.com^".data] ["@@||good.example.com^".data]
      "ads.example.com$bogusopt".data).2.1 (by decide)).2.2.2⟩

/-- C10: with `flushExistingInCategory = false` the loaders perform no
duplicate detection: loading the same list twice into the same category
appends every parsed rule a second time and reports the same loaded and
failed counts both times; the file loader with readable content behaves
exactly as the string loader. -/
theorem load_twice_no_dedup (store : FilteringStore) (content : List Char)
    (cat : Nat) :
    (LoadFilteringListFromString
        (LoadFilteringListFromString store content cat false).1
        content cat false).1.urlRules
      = store.urlRules ++ (loadLines cat (toLines content)).urlRules
          ++ (loadLines cat (toLines content)).urlRules ∧
    (LoadFilteringListFromString
        (LoadFilteringListFromString store content cat false).1
        content cat false).1.elementRules
      = store.elementRules ++ (loadLines cat (toLines content)).elementRules
          ++ (loadLines cat (toLines content)).elementRules ∧
    (LoadFilteringListFromString
        (LoadFilteringListFromString store content cat false).1
        content cat false).2
      = (LoadFilteringListFromString store content cat false).2 ∧
    LoadFilteringListFromFile store (some content) cat false
      = (LoadFilteringListFromString store content cat false, []) :=
  ⟨rfl, rfl, rfl, rfl⟩

/-- C6: a reload of a category's rules is observed atomically.  Starting
a reload of `lines` over a published index `old`, every state the system
can reach — after any number of writer parse steps and at most one
publish — shows readers either the complete pre-reload index or the
complete post-reload index, never a mixture. -/
theorem reload_atomic (cat : Nat) (old : List UrlRule)
    (lines : List (List Char)) (σ : ReloadSystem)
    (h : Relation.ReflTransGen (ReloadStep cat) ⟨old, some ([], lines)⟩ σ) :
    σ.published = old ∨ σ.published = (loadLines cat lines).urlRules := by
  suffices hinv : (∃ ls₁ ls₂, lines = ls₁ ++ ls₂ ∧
      σ = ⟨old, some ((loadLines cat ls₁).urlRules, ls₂)⟩) ∨
      σ = ⟨(loadLines cat lines).urlRules, none⟩ by
    rcases hinv with ⟨ls₁, ls₂, -, hσ⟩ | hσ
    · left
      rw [hσ]
    · right
      rw [hσ]
  induction h with
  | refl => exact Or.inl ⟨[], lines, rfl, rfl⟩
  | tail hsteps hstep ih =>
    rcases ih with ⟨ls₁, ls₂, hl, hb⟩ | hb
    · subst hb
      cases hstep with
      | parseOne pub acc l ls =>
        left
        refine ⟨ls₁ ++ [l], ls, ?_, ?_⟩
        · rw [hl]
          simp
        · rw [loadLines_append]
      | publish pub acc =>
        right
        have hlin : lines = ls₁ := by simpa using hl
        rw [hlin]
    · subst hb
      cases hstep

/-- Witness for `reload_atomic`: a complete two-step reload (parse the
single line, publish) observed at its final state. -/
theorem reload_atomic_witness :
    (ReloadSystem.mk
        ([] ++ (loadLines 1 ["||ads.example.com^".data]).urlRules) none).published
      = [⟨RulePattern.generic "old.".data, [], false, 1⟩] ∨
    (ReloadSystem.mk
        ([] ++ (loadLines 1 ["||ads.example.com^".data]).urlRules) none).published
      = (loadLines 1 ["||ads.example.com^".data]).urlRules :=
  reload_atomic 1 [⟨RulePattern.generic "old.".data, [], false, 1⟩]
    ["||ads.example.com^".data]
    ⟨[] ++ (loadLines 1 ["||ads.example.com^".data]).urlRules, none⟩
    (Relation.ReflTransGen.tail
      (Relation.ReflTransGen.tail Relation.ReflTransGen.refl
        (ReloadStep.parseOne
          [⟨RulePattern.generic "old.".data, [], false, 1⟩] []
          "||ads.example.com^".data []))
      (ReloadStep.publish
        [⟨RulePattern.generic "old.".data, [], false, 1⟩]
        ([] ++ (loadLines 1 ["||ads.example.com^".data]).urlRules)))

/-- C7: singleflight on the per-host certificate slot: `N ≥ 1`
simultaneous first-time requests for a host start exactly one leaf
generation; on success every one of the `N` callers receives the same
leaf bytes; on failure every waiter receives the error and the slot is
cleared, so a later request may retry (starting a second generation). -/
theorem singleflight_generation (N : Nat) (leaf : List Char) :
    (1 ≤ N → requests N initCertSlot
        = ⟨CertSlot.pending N, 1, [], 0⟩) ∧
    (1 ≤ N → genSuccess leaf (requests N initCertSlot)
        = ⟨CertSlot.done leaf, 1, List.replicate N leaf, 0⟩) ∧
    (1 ≤ N → genFailure (requests N initCertSlot)
        = ⟨CertSlot.empty, 1, [], N⟩) ∧
    (1 ≤ N → request (genFailure (requests N initCertSlot))
        = ⟨CertSlot.pending 1, 2, [], N⟩) := by
  have key : ∀ n : Nat, requests (n + 1) initCertSlot
      = ⟨CertSlot.pending (n + 1), 1, [], 0⟩ := by
    intro n
    induction n with
    | zero => rfl
    | succ k ih =>
      have hstep : requests (k + 1 + 1) initCertSlot
          = request (requests (k + 1) initCertSlot) := rfl
      rw [hstep, ih]
      rfl
  refine ⟨?_, ?_, ?_, ?_⟩
  · intro hN
    obtain ⟨m, rfl⟩ : ∃ m, N = m + 1 := ⟨N - 1, by omega⟩
    exact key m
  · intro hN
    obtain ⟨m, rfl⟩ : ∃ m, N = m + 1 := ⟨N - 1, by omega⟩
    rw [key m]
    simp [genSuccess]
  · intro hN
    obtain ⟨m, rfl⟩ : ∃ m, N = m + 1 := ⟨N - 1, by omega⟩
    rw [key m]
    simp [genFailure]
  · intro hN
    obtain ⟨m, rfl⟩ : ∃ m, N = m + 1 := ⟨N - 1, by omega⟩
    rw [key m]
    simp [genFailure, request]

/-- Witness for `singleflight_generation` at three concurrent first-time
requests. -/
theorem singleflight_generation_witness :
    requests 3 initCertSlot = ⟨CertSlot.pending 3, 1, [], 0⟩ ∧
    genSuccess "LEAF".data (requests 3 initCertSlot)
      = ⟨CertSlot.done "LEAF".data, 1, List.replicate 3 "LEAF".data, 0⟩ ∧
    genFailure (requests 3 initCertSlot) = ⟨CertSlot.empty, 1, [], 3⟩ :=
  ⟨(singleflight_generation 3 "LEAF".data).1 (by decide),
   (singleflight_generation 3 "LEAF".data).2.1 (by decide),
   (singleflight_generation 3 "LEAF".data).2.2.1 (by decide)⟩

/-- C8: `GetRootCertificatePEM` returns the PEM-encoded bytes of the
currently installed root CA; when no root CA has been generated, or the
encoding errors, it returns the empty vector. -/
theorem root_certificate_pem (s : CertStore) :
    (s.rootCA = none → GetRootCertificatePEM s = []) ∧
    (∀ ca, s.rootCA = some ca → pemEncode ca = none →
      GetRootCertificatePEM s = []) ∧
    (∀ ca pem, s.rootCA = some ca → pemEncode ca = some pem →
      GetRootCertificatePEM s = pem) := by
  refine ⟨?_, ?_, ?_⟩
  · intro h
    simp [GetRootCertificatePEM, h]
  · intro ca h he
    simp [GetRootCertificatePEM, h, he]
  · intro ca pem h he
    simp [GetRootCertificatePEM, h, he]

/-- Witness for `root_certificate_pem`: no CA yields the empty vector; an
installed CA yields its PEM armour. -/
theorem root_certificate_pem_witness :
    GetRootCertificatePEM ⟨none⟩ = [] ∧
    GetRootCertificatePEM ⟨some "MIIC".data⟩
      = pemHeader ++ "MIIC".data ++ pemFooter :=
  ⟨(root_certificate_pem ⟨none⟩).1 rfl,
   (root_certificate_pem ⟨some "MIIC".data⟩).2.2 "MIIC".data
     (pemHeader ++ "MIIC".data ++ pemFooter) rfl (by decide)⟩

end HttpEngine
